import Mathlib

/-!
Shallow embedding of the stock screening pipeline
(`rising_stock.py` and `mystock_volume.py`) and proofs about the
specified behaviour of its cache, screening, resolution and join logic.

Machine floats from the source are modelled as exact rationals (`ℚ`);
timestamps are modelled as integer seconds (`ℤ`); pandas DataFrames are
modelled as explicit lists of keyed rows.
-/

namespace Stock

/-- Last `n` elements of a list, as pandas `Series.tail(n)`. -/
def tailN (n : Nat) (l : List ℚ) : List ℚ := l.drop (l.length - n)

/-- Maximum of a list of rationals; pandas `.max()` (0 only on the empty
series, where pandas would give NaN — callers guard non-emptiness). -/
def qmax : List ℚ → ℚ
  | [] => 0
  | x :: xs => xs.foldl max x

/-- Minimum of a list of rationals; pandas `.min()`. -/
def qmin : List ℚ → ℚ
  | [] => 0
  | x :: xs => xs.foldl min x

/-- Arithmetic mean, pandas `.mean()`. -/
def qmean (l : List ℚ) : ℚ := l.sum / l.length

/-- Last element, pandas `.iloc[-1]` (0 on the empty series, where the
source would raise — callers guard non-emptiness). -/
def lastQ (l : List ℚ) : ℚ := l.getLast?.getD 0

/-!
### Turnaround classification (`rising_stock.py`, `fetch_one`)

The quarterly net-income series `ni` is ordered most-recent first, as
`stock.quarterly_financials.loc['Net Income']` is.  The classification
uses only the first two entries; with fewer than two, the status stays
at its initial value `"N/A"` (also taken when the financials frame is
empty or has no net-income row, which the model represents as `ni = []`).
-/

/-- `turnaround_status` from `fetch_one` in `rising_stock.py`. -/
def turnaround_status (ni : List ℚ) : String :=
  match ni with
  | r :: p :: _ =>
    if r > 0 ∧ p > 0 then
      (if r > p then "Profit Growth" else "Profit (Declining)")
    else if r > 0 ∧ 0 ≥ p then "Turn to Black"
    else if r ≤ 0 ∧ p ≤ 0 then
      (if r > p then "Deficit Reduction" else "Deficit (Worsening)")
    else "Turn to Red"
  | _ => "N/A"

/-- Claim C7: the turnaround classification maps (100,50) to Profit Growth,
(50,100) to Profit (Declining), (10,−10) to Turn to Black, (−10,10) to
Turn to Red, (−5,−10) to Deficit Reduction, (−10,−5) to Deficit
(Worsening), and fewer than two data points to N/A. -/
theorem claim7_turnaround_classification :
    turnaround_status [100, 50] = "Profit Growth"
    ∧ turnaround_status [50, 100] = "Profit (Declining)"
    ∧ turnaround_status [10, -10] = "Turn to Black"
    ∧ turnaround_status [-10, 10] = "Turn to Red"
    ∧ turnaround_status [-5, -10] = "Deficit Reduction"
    ∧ turnaround_status [-10, -5] = "Deficit (Worsening)"
    ∧ turnaround_status [7] = "N/A"
    ∧ turnaround_status [] = "N/A" := by
  refine ⟨?_, ?_, ?_, ?_, ?_, ?_, ?_, ?_⟩ <;> decide

/-!
### Screening engine (`rising_stock.py`, `analyze_stage1`)

The price snapshot is modelled as a partial map from symbol to its four
per-field series (each already `dropna`-ed, oldest first).  A symbol's
row in the loop body can leave the loop in three ways that all produce
no candidate: the explicit `len < 60` guard, a NaN propagating from a
`max`/`min` over an empty series (making `is_vcp` false), and the
`IndexError` from `.iloc[-1]` on an empty volume series (caught by the
bare `except`).  The model folds these into the guards below.
-/

/-- Per-symbol OHLCV series after per-field `dropna`, oldest first. -/
structure SymbolData where
  close : List ℚ
  high : List ℚ
  low : List ℚ
  volume : List ℚ
deriving DecidableEq

/-- One row of the stage-1 candidate frame. -/
structure Candidate where
  ticker : String
  vcp : Bool
  volSpike : Bool
  price : ℚ
deriving DecidableEq

/-- Body of the per-symbol loop of `analyze_stage1`:
`h60 = high.tail(60).max()`, `l60 = low.tail(60).min()`,
`volatility = (h60 - l60) / h60`, `is_vcp` and `is_vol_spike` as in the
source, appending a candidate row only when `is_vcp` holds. -/
def screenOne (t : String) (d : SymbolData) : Option Candidate :=
  if d.close.length < 60 then none
  else if d.high = [] ∨ d.low = [] ∨ d.volume = [] then none
  else
    let h60 := qmax (tailN 60 d.high)
    let l60 := qmin (tailN 60 d.low)
    let volatility := (h60 - l60) / h60
    let currPrice := lastQ d.close
    let currVol := lastQ d.volume
    let vol20avg := qmean (tailN 20 d.volume)
    let isVolSpike : Bool := decide (currVol > vol20avg * (103 / 100 : ℚ))
    if volatility < (20 / 100 : ℚ) ∧ currPrice > h60 * (85 / 100 : ℚ) then
      some ⟨t, true, isVolSpike, currPrice⟩
    else none

/-- `analyze_stage1` from `rising_stock.py`: restrict to tickers present
in the snapshot, then collect the candidate rows in ticker order. -/
def analyze_stage1 (market : String → Option SymbolData)
    (tickers : List String) : List Candidate :=
  let valid := tickers.filter (fun t => (market t).isSome)
  valid.filterMap (fun t =>
    match market t with
    | some d => screenOne t d
    | none => none)

/-- `screenOne t d` returns a candidate exactly when the 60-day history,
non-NaN and volatility-contraction conditions all hold, and the candidate
row is then determined by `d`. -/
theorem screenOne_eq_some_iff {t : String} {d : SymbolData} {c : Candidate} :
    screenOne t d = some c ↔
      60 ≤ d.close.length ∧ d.high ≠ [] ∧ d.low ≠ [] ∧ d.volume ≠ [] ∧
      ((qmax (tailN 60 d.high) - qmin (tailN 60 d.low)) / qmax (tailN 60 d.high)
          < (20 / 100 : ℚ)
        ∧ lastQ d.close > qmax (tailN 60 d.high) * (85 / 100 : ℚ)) ∧
      c = ⟨t, true,
            decide (lastQ d.volume > qmean (tailN 20 d.volume) * (103 / 100 : ℚ)),
            lastQ d.close⟩ := by
  simp only [screenOne]
  split_ifs with h1 h2 h3
  · simp only [false_iff, reduceCtorEq]
    intro h
    omega
  · simp only [false_iff, reduceCtorEq]
    rcases h2 with h | h | h <;> intro hc <;> tauto
  · push_neg at h2
    constructor
    · intro h
      injection h with h
      refine ⟨by omega, h2.1, h2.2.1, h2.2.2, h3, h.symm⟩
    · rintro ⟨-, -, -, -, -, rfl⟩
      rfl
  · push_neg at h2
    simp only [false_iff, reduceCtorEq]
    rintro ⟨-, -, -, -, hvcp, -⟩
    exact h3 hvcp

/-- Membership in the stage-1 candidate list unfolds to a successful
per-symbol screen on a ticker present in the snapshot. -/
theorem mem_analyze_stage1_iff {market : String → Option SymbolData}
    {tickers : List String} {c : Candidate} :
    c ∈ analyze_stage1 market tickers ↔
      ∃ t ∈ tickers, ∃ d, market t = some d ∧ screenOne t d = some c := by
  unfold analyze_stage1
  simp only [List.mem_filterMap, List.mem_filter]
  constructor
  · rintro ⟨t, ⟨ht, hsome⟩, hmatch⟩
    rcases Option.isSome_iff_exists.mp (by simpa using hsome) with ⟨d, hd⟩
    refine ⟨t, ht, d, hd, ?_⟩
    rw [hd] at hmatch
    exact hmatch
  · rintro ⟨t, ht, d, hd, hsc⟩
    refine ⟨t, ⟨ht, by simp [hd]⟩, ?_⟩
    rw [hd]
    exact hsc

/-- Claim C1, amended: for every candidate emitted by the screening
engine, the volume-spike flag is set iff the latest volume is strictly
greater than 1.03 times the mean volume of the last 20 days INCLUDING
the latest day (the source averages `v_series.tail(20)`, which contains
the latest row); at exactly 1.03 times that average the flag is not
set. -/
theorem claim1_volume_spike_amended (market : String → Option SymbolData)
    (tickers : List String) (c : Candidate) (d : SymbolData)
    (hc : c ∈ analyze_stage1 market tickers)
    (hd : market c.ticker = some d) :
    (c.volSpike = true ↔
      lastQ d.volume > qmean (tailN 20 d.volume) * (103 / 100 : ℚ))
    ∧ (lastQ d.volume = qmean (tailN 20 d.volume) * (103 / 100 : ℚ) →
        c.volSpike = false) := by
  rcases mem_analyze_stage1_iff.mp hc with ⟨t, ht, d', hd', hsc⟩
  rcases screenOne_eq_some_iff.mp hsc with ⟨-, -, -, -, -, rfl⟩
  simp only at hd
  rw [hd'] at hd
  injection hd with hdd
  subst hdd
  constructor
  · simp [decide_eq_true_iff]
  · intro heq
    simp [heq]

/-- Claim C5: a symbol is emitted as a volatility-contraction candidate
iff it is requested, present in the snapshot with at least 60 days of
closing-price history, its 60-day volatility `(h60 - l60) / h60` is
strictly below 0.20 and its current close strictly exceeds 0.85 times
the 60-day high; short-history or absent symbols are (silently) never
emitted.  The hypothesis `hwf` states snapshot well-formedness: a symbol
with 60 closing rows also has high/low/volume data. -/
theorem claim5_vcp_candidates (market : String → Option SymbolData)
    (tickers : List String)
    (hwf : ∀ s d, market s = some d → 60 ≤ d.close.length →
      d.high ≠ [] ∧ d.low ≠ [] ∧ d.volume ≠ []) (sym : String) :
    ((analyze_stage1 market tickers).any (fun c => c.ticker = sym) = true ↔
      sym ∈ tickers ∧ ∃ d, market sym = some d ∧ 60 ≤ d.close.length ∧
        (qmax (tailN 60 d.high) - qmin (tailN 60 d.low)) / qmax (tailN 60 d.high)
            < (20 / 100 : ℚ)
        ∧ lastQ d.close > qmax (tailN 60 d.high) * (85 / 100 : ℚ)) := by
  rw [List.any_eq_true]
  constructor
  · rintro ⟨c, hc, hticker⟩
    rcases mem_analyze_stage1_iff.mp hc with ⟨t, ht, d, hd, hsc⟩
    rcases screenOne_eq_some_iff.mp hsc with ⟨hlen, -, -, -, hvcp, rfl⟩
    simp only [decide_eq_true_iff] at hticker
    subst hticker
    exact ⟨ht, d, hd, hlen, hvcp⟩
  · rintro ⟨ht, d, hd, hlen, hvcp⟩
    refine ⟨⟨sym, true,
        decide (lastQ d.volume > qmean (tailN 20 d.volume) * (103 / 100 : ℚ)),
        lastQ d.close⟩, ?_, by simp⟩
    refine mem_analyze_stage1_iff.mpr ⟨sym, ht, d, hd, ?_⟩
    rcases hwf sym d hd hlen with ⟨hh, hl, hv⟩
    exact screenOne_eq_some_iff.mpr ⟨hlen, hh, hl, hv, hvcp, rfl⟩

/-!
### Concrete snapshots used by the counterexamples and witnesses
-/

/-- 60 closes at 100; flat high/low; 21 volume rows: 20 at 1000 and the
latest at 1031.  Against the 20-day average including the latest row
(code behaviour) the spike threshold is 1.03 × 1001.55 = 1031.5965, so
the flag is NOT set; against the average of the 20 days excluding the
latest (spec wording) the threshold is 1030, which 1031 exceeds. -/
def dataC1 : SymbolData :=
  ⟨List.replicate 59 100 ++ [100], [100], [95],
   List.replicate 20 1000 ++ [1031]⟩

/-- One-symbol snapshot holding `dataC1`. -/
def marketC1 : String → Option SymbolData :=
  fun s => if s = "AAA" then some dataC1 else none

theorem analyze_marketC1_eval : analyze_stage1 marketC1 ["AAA"]
    = [⟨"AAA", true, false, 100⟩] := by
  have h1 : analyze_stage1 marketC1 ["AAA"]
      = (["AAA"].filter (fun t => (marketC1 t).isSome)).filterMap (fun t =>
          match marketC1 t with
          | some d => screenOne t d
          | none => none) := rfl
  have h2 : marketC1 "AAA" = some dataC1 := by simp [marketC1]
  rw [h1]
  simp only [List.filter, h2, Option.isSome, List.filterMap]
  simp only [screenOne, dataC1]
  norm_num [tailN, qmax, qmin, qmean, lastQ]

/-- Claim C1 as stated is false: in `marketC1` the symbol `AAA` is
emitted with the volume-spike flag cleared although its latest volume
(1031) strictly exceeds 1.03 times the mean volume of the trailing 20
days excluding the latest day (1.03 × 1000 = 1030). -/
theorem claim1_volume_spike_counterexample :
    analyze_stage1 marketC1 ["AAA"] = [⟨"AAA", true, false, 100⟩]
    ∧ lastQ dataC1.volume
        > qmean (tailN 20 dataC1.volume.dropLast) * (103 / 100 : ℚ) := by
  refine ⟨analyze_marketC1_eval, ?_⟩
  simp only [dataC1, lastQ, qmean, tailN]
  norm_num

/-- Same shape as `dataC1` but with latest volume 1040, which exceeds
1.03 times the including-latest 20-day average (1032.06): flag set. -/
def dataW1 : SymbolData :=
  ⟨List.replicate 59 100 ++ [100], [100], [95],
   List.replicate 20 1000 ++ [1040]⟩

/-- One-symbol snapshot holding `dataW1`. -/
def marketW1 : String → Option SymbolData :=
  fun s => if s = "AAW" then some dataW1 else none

theorem analyze_marketW1_eval : analyze_stage1 marketW1 ["AAW"]
    = [⟨"AAW", true, true, 100⟩] := by
  have h1 : analyze_stage1 marketW1 ["AAW"]
      = (["AAW"].filter (fun t => (marketW1 t).isSome)).filterMap (fun t =>
          match marketW1 t with
          | some d => screenOne t d
          | none => none) := rfl
  have h2 : marketW1 "AAW" = some dataW1 := by simp [marketW1]
  rw [h1]
  simp only [List.filter, h2, Option.isSome, List.filterMap]
  simp only [screenOne, dataW1]
  norm_num [tailN, qmax, qmin, qmean, lastQ]

theorem claim1_volume_spike_amended_witness :
    ((⟨"AAW", true, true, 100⟩ : Candidate).volSpike = true ↔
      lastQ dataW1.volume > qmean (tailN 20 dataW1.volume) * (103 / 100 : ℚ))
    ∧ (lastQ dataW1.volume = qmean (tailN 20 dataW1.volume) * (103 / 100 : ℚ) →
        (⟨"AAW", true, true, 100⟩ : Candidate).volSpike = false) :=
  claim1_volume_spike_amended marketW1 ["AAW"] ⟨"AAW", true, true, 100⟩ dataW1
    (by rw [analyze_marketW1_eval]; exact List.mem_singleton.mpr rfl)
    (by simp [marketW1])

theorem claim5_vcp_candidates_witness :
    (analyze_stage1 marketW1 ["AAW"]).any (fun c => c.ticker = "AAW") = true ↔
      "AAW" ∈ ["AAW"] ∧ ∃ d, marketW1 "AAW" = some d ∧ 60 ≤ d.close.length ∧
        (qmax (tailN 60 d.high) - qmin (tailN 60 d.low)) / qmax (tailN 60 d.high)
            < (20 / 100 : ℚ)
        ∧ lastQ d.close > qmax (tailN 60 d.high) * (85 / 100 : ℚ) :=
  claim5_vcp_candidates marketW1 ["AAW"]
    (by
      intro s d h hlen
      rw [marketW1] at h
      split at h
      · cases h
        refine ⟨by simp [dataW1], by simp [dataW1], by simp [dataW1]⟩
      · cases h)
    "AAW"

/-!
### Symbol resolution (`mystock_volume.py`, main loop)

Python strings are modelled as `List Char` so that the cleaning and
suffix logic stays kernel-computable.  `fetch sym` models
`yf.Ticker(sym).history(...)`: the fetched price series, one entry per
trading day (entries themselves abstracted to `ℚ`); `[]` models an
empty DataFrame.
-/

/-- Python `str.isdigit`: non-empty and all digits. -/
def pyIsDigit (s : List Char) : Bool := !s.isEmpty && s.all Char.isDigit

/-- Python `str.strip`. -/
def strTrim (s : List Char) : List Char :=
  ((s.dropWhile Char.isWhitespace).reverse.dropWhile Char.isWhitespace).reverse

/-- Python `str.endswith`. -/
def strEndsWith (s suf : List Char) : Bool := suf.isSuffixOf s

/-- Step 1 of the loop body: strip, then drop a `.KR` suffix from a
9-character code whose first six characters are digits. -/
def cleanCode (raw : List Char) : List Char :=
  let code := strTrim raw
  if strEndsWith code ".KR".data && code.length == 9 && pyIsDigit (code.take 6) then
    code.take 6
  else code

/-- Step 2: the ordered candidate list — `.KS` then `.KQ` for a pure
6-digit code, otherwise the cleaned code itself. -/
def symbols_to_try (code : List Char) : List (List Char) :=
  if pyIsDigit code && code.length == 6 then
    [code ++ ".KS".data, code ++ ".KQ".data]
  else [code]

/-- The candidate loop: the first candidate whose fetched history is
non-empty wins (`if not hist.empty: ...; break`); `none` models the
loop ending with `df` still empty. -/
def firstFetchHit (fetch : List Char → List ℚ) (syms : List (List Char)) :
    Option (List Char × List ℚ) :=
  syms.findSome? (fun sym =>
    if (fetch sym).isEmpty then none else some (sym, fetch sym))

/-- `min_rows = 22 if use_d_minus_1 else 21`. -/
def min_rows (useD1 : Bool) : Nat := if useD1 then 22 else 21

/-- Resolution for one raw code: candidate loop, then the
`df.empty or len(df) < min_rows` check on the chosen candidate only;
`none` models "warn and continue" (the ticker is skipped). -/
def resolve_symbol (fetch : List Char → List ℚ) (raw : List Char)
    (useD1 : Bool) : Option (List Char × List ℚ) :=
  match firstFetchHit fetch (symbols_to_try (cleanCode raw)) with
  | none => none
  | some (sym, hist) =>
    if hist.length < min_rows useD1 then none else some (sym, hist)

/-- A successful `findSome?` splits its list at the first hit. -/
theorem findSome?_eq_some_split {α β : Type} (f : α → Option β) (l : List α)
    (b : β) (h : l.findSome? f = some b) :
    ∃ pre a post, l = pre ++ a :: post ∧ f a = some b ∧ ∀ x ∈ pre, f x = none := by
  induction l with
  | nil => simp [List.findSome?] at h
  | cons a l ih =>
    rw [List.findSome?_cons] at h
    cases hfa : f a with
    | some b' =>
      rw [hfa] at h
      injection h with h
      subst h
      exact ⟨[], a, l, rfl, hfa, by simp⟩
    | none =>
      rw [hfa] at h
      rcases ih h with ⟨pre, x, post, rfl, hx, hpre⟩
      refine ⟨a :: pre, x, post, rfl, hx, ?_⟩
      intro y hy
      rcases List.mem_cons.mp hy with rfl | hy
      · exact hfa
      · exact hpre y hy

/-- Claim C2, amended: the canonical candidate is the FIRST one whose
fetched series is non-empty, regardless of its length; the minimum-days
check (21 same-day, 22 for D-1) is applied afterwards to that candidate
alone.  A successful resolution therefore returns the first non-empty
candidate together with its series of at least the minimum length;
when every candidate is empty, or the chosen candidate is shorter than
the minimum, the ticker is skipped with a warning (`none`) rather than
an exception escaping the batch. -/
theorem claim2_resolution_amended (fetch : List Char → List ℚ)
    (raw : List Char) (useD1 : Bool) :
    (∀ sym hist, resolve_symbol fetch raw useD1 = some (sym, hist) →
        hist = fetch sym ∧ hist ≠ [] ∧ min_rows useD1 ≤ hist.length
        ∧ ∃ pre post, symbols_to_try (cleanCode raw) = pre ++ sym :: post
            ∧ ∀ s ∈ pre, fetch s = [])
    ∧ ((∀ s ∈ symbols_to_try (cleanCode raw), fetch s = []) →
        resolve_symbol fetch raw useD1 = none)
    ∧ (∀ sym hist,
        firstFetchHit fetch (symbols_to_try (cleanCode raw)) = some (sym, hist) →
        hist.length < min_rows useD1 → resolve_symbol fetch raw useD1 = none) := by
  refine ⟨?_, ?_, ?_⟩
  · intro sym hist h
    rw [resolve_symbol] at h
    cases hfirst : firstFetchHit fetch (symbols_to_try (cleanCode raw)) with
    | none => rw [hfirst] at h; cases h
    | some p =>
      rw [hfirst] at h
      obtain ⟨sym', hist'⟩ := p
      have h2 : (if hist'.length < min_rows useD1 then
          (none : Option (List Char × List ℚ)) else some (sym', hist'))
          = some (sym, hist) := h
      by_cases hlen : hist'.length < min_rows useD1
      · rw [if_pos hlen] at h2; cases h2
      · rw [if_neg hlen] at h2
        injection h2 with h
        obtain ⟨rfl, rfl⟩ : sym' = sym ∧ hist' = hist := by
          constructor <;> [exact congrArg Prod.fst h; exact congrArg Prod.snd h]
        rcases findSome?_eq_some_split _ _ _ hfirst with ⟨pre, a, post, hl, ha, hpre⟩
        have hfa : ¬ (fetch a).isEmpty ∧ a = sym' ∧ fetch a = hist' := by
          by_cases he : (fetch a).isEmpty
          · rw [if_pos he] at ha; cases ha
          · rw [if_neg he] at ha
            injection ha with ha
            exact ⟨he, congrArg Prod.fst ha, congrArg Prod.snd ha⟩
        obtain ⟨hne, rfl, hfh⟩ := hfa
        refine ⟨hfh.symm, ?_, Nat.not_lt.mp hlen, pre, post, hl, ?_⟩
        · rw [← hfh]; simpa [List.isEmpty_iff] using hne
        · intro s hs
          have := hpre s hs
          by_cases he : (fetch s).isEmpty
          · exact List.isEmpty_iff.mp he
          · rw [if_neg he] at this; cases this
  · intro hall
    rw [resolve_symbol]
    have : firstFetchHit fetch (symbols_to_try (cleanCode raw)) = none := by
      rw [firstFetchHit, List.findSome?_eq_none_iff]
      intro s hs
      rw [hall s hs]
      simp
    rw [this]
  · intro sym hist hfirst hlen
    rw [resolve_symbol, hfirst]
    show (if hist.length < min_rows useD1 then
        (none : Option (List Char × List ℚ)) else some (sym, hist)) = none
    rw [if_pos hlen]

/-- Fetch map where the `.KS` candidate has a non-empty but too-short
series (5 rows) while the `.KQ` candidate has 30 rows. -/
def fetchC2 : List Char → List ℚ := fun s =>
  if s = "005930.KS".data then List.replicate 5 1
  else if s = "005930.KQ".data then List.replicate 30 1 else []

/-- Claim C2 as stated is false: for the raw code `005930` under
same-day analysis, the `.KQ` candidate has a non-empty series with at
least the minimum 21 trading days, so per the claim it should become
canonical — but the code stops at the non-empty `.KS` candidate, fails
its length check and skips the ticker (`none`). -/
theorem claim2_resolution_counterexample :
    resolve_symbol fetchC2 "005930".data false = none
    ∧ symbols_to_try (cleanCode "005930".data)
        = ["005930.KS".data, "005930.KQ".data]
    ∧ fetchC2 "005930.KS".data ≠ [] ∧ (fetchC2 "005930.KS".data).length < 21
    ∧ fetchC2 "005930.KQ".data ≠ [] ∧ 21 ≤ (fetchC2 "005930.KQ".data).length := by
  refine ⟨by decide, by decide, by decide, by decide, by decide, by decide⟩

/-- Fetch map where the `.KS` candidate succeeds with 25 rows. -/
def fetchW2 : List Char → List ℚ := fun s =>
  if s = "005930.KS".data then List.replicate 25 1 else []

theorem claim2_resolution_amended_witness :
    List.replicate 25 (1 : ℚ) = fetchW2 "005930.KS".data
    ∧ List.replicate 25 (1 : ℚ) ≠ []
    ∧ min_rows false ≤ (List.replicate 25 (1 : ℚ)).length
    ∧ ∃ pre post, symbols_to_try (cleanCode "005930".data)
        = pre ++ "005930.KS".data :: post ∧ ∀ s ∈ pre, fetchW2 s = [] :=
  (claim2_resolution_amended fetchW2 "005930".data false).1
    "005930.KS".data (List.replicate 25 1) (by decide)

/-!
### Ticker source adapter (`rising_stock.py`, `load_tickers_from_sheet`)

The success path of the adapter takes the designated sheet column
(`values`, each cell a Python string modelled as `List Char`) and runs
`if values[0].lower() == 'ticker': values = values[1:]` followed by
`[v.strip().upper() for v in values if v.strip()]`.  Every failure path
(missing/invalid credentials, gspread errors) shows `st.error` and
returns `[]`; `authOk = false` bundles those paths, and the second
component of the result records whether an error was surfaced. -/

/-- Python `str.upper`. -/
def strUpper (s : List Char) : List Char := s.map Char.toUpper

/-- Python `str.lower`. -/
def strLower (s : List Char) : List Char := s.map Char.toLower

/-- The success-path post-processing of the sheet column. -/
def process_sheet_values (values : List (List Char)) : List (List Char) :=
  match values with
  | [] => []
  | v :: rest =>
    let vals := if strLower v = "ticker".data then rest else v :: rest
    vals.filterMap (fun w =>
      if (strTrim w).isEmpty then none else some (strUpper (strTrim w)))

/-- `load_tickers_from_sheet`, with all failure paths collapsed into
`authOk = false`; the Bool component records a surfaced error. -/
def load_tickers_from_sheet (authOk : Bool) (values : List (List Char)) :
    List (List Char) × Bool :=
  if authOk then (process_sheet_values values, false) else ([], true)

/-- The comprehension `[f(v) for v in l if p(v)]` is a filter followed
by a map. -/
theorem filterMap_trim_eq_map_filter (l : List (List Char)) :
    (l.filterMap (fun w =>
      if (strTrim w).isEmpty then none else some (strUpper (strTrim w))))
    = (l.filter (fun w => !(strTrim w).isEmpty)).map
        (fun w => strUpper (strTrim w)) := by
  induction l with
  | nil => rfl
  | cons a l ih =>
    simp only [List.isEmpty_iff] at ih
    by_cases h : strTrim a = []
    · simp [List.filterMap_cons, List.filter_cons, List.isEmpty_iff, h, ih]
    · simp [List.filterMap_cons, List.filter_cons, List.isEmpty_iff, h, ih]

/-- Claim C10, amended: on success the adapter returns the column
values upper-cased and whitespace-trimmed with blank cells dropped and
a leading `ticker` header (case-insensitively) skipped, in column order
and WITHOUT deduplication; on an authorization/availability failure it
returns an empty list with an error surfaced. -/
theorem claim10_adapter_amended (authOk : Bool) (values : List (List Char)) :
    (authOk = false → load_tickers_from_sheet authOk values = ([], true))
    ∧ (authOk = true → (load_tickers_from_sheet authOk values).2 = false)
    ∧ (∀ v rest, values = v :: rest → strLower v = "ticker".data →
        (load_tickers_from_sheet true values).1
          = (rest.filter (fun w => !(strTrim w).isEmpty)).map
              (fun w => strUpper (strTrim w)))
    ∧ ((∀ v rest, values = v :: rest → strLower v ≠ "ticker".data) →
        (load_tickers_from_sheet true values).1
          = (values.filter (fun w => !(strTrim w).isEmpty)).map
              (fun w => strUpper (strTrim w))) := by
  refine ⟨?_, ?_, ?_, ?_⟩
  · intro h; subst h; rfl
  · intro h; subst h; rfl
  · intro v rest hv hlow
    subst hv
    show process_sheet_values (v :: rest) = _
    rw [process_sheet_values]
    rw [if_pos hlow]
    exact filterMap_trim_eq_map_filter rest
  · intro hnone
    cases values with
    | nil => rfl
    | cons v rest =>
      show process_sheet_values (v :: rest) = _
      rw [process_sheet_values, if_neg (hnone v rest rfl)]
      exact filterMap_trim_eq_map_filter (v :: rest)

/-- A column whose data rows repeat the same ticker. -/
def valuesC10 : List (List Char) := ["AAPL".data, "AAPL".data]

/-- Claim C10 as stated is false: the adapter keeps duplicates — for a
column listing `AAPL` twice the returned collection contains `AAPL`
twice, so it is not deduplicated. -/
theorem claim10_adapter_counterexample :
    (load_tickers_from_sheet true valuesC10).1 = ["AAPL".data, "AAPL".data]
    ∧ ¬ (load_tickers_from_sheet true valuesC10).1.Nodup := by
  refine ⟨by decide, by decide⟩

theorem claim10_adapter_amended_witness :
    (load_tickers_from_sheet false ["AAPL".data] = ([], true))
    ∧ ((load_tickers_from_sheet true ["AAPL".data]).2 = false)
    ∧ ((load_tickers_from_sheet true ["ticker".data, " aapl ".data]).1
        = ([" aapl ".data].filter (fun w => !(strTrim w).isEmpty)).map
            (fun w => strUpper (strTrim w))) :=
  ⟨(claim10_adapter_amended false ["AAPL".data]).1 rfl,
   (claim10_adapter_amended true ["AAPL".data]).2.1 rfl,
   (claim10_adapter_amended true ["ticker".data, " aapl ".data]).2.2.1
     "ticker".data [" aapl ".data] rfl (by decide)⟩

/-!
### Fundamentals cache (`rising_stock.py`, `get_stock_info_data`)

A cached row is modelled by its ticker, its `LastUpdated` timestamp
(integer seconds) and an opaque payload standing for the remaining
fundamental fields.  The stored frame's schema state is carried by
three flags: `hasName`/`hasRecMean` model the
`'Name' not in cached_df.columns or 'RecMean' not in cached_df.columns`
check, and `hasLastUpdated` models the `'LastUpdated' not in columns`
init that backdates every row to `now - 365 days`.  `fetch` models
`fetch_one` (returning `none` on a per-symbol failure); the completion
order of the worker pool is abstracted to request order, and theorems
only use membership, which order does not affect.
-/

/-- One row of `stockinfo.pkl`. -/
structure InfoRec where
  ticker : String
  lastUpdated : ℤ
  payload : ℚ
deriving DecidableEq

/-- The loaded fundamentals frame plus its schema state. -/
structure InfoCache where
  rows : List InfoRec
  hasName : Bool
  hasRecMean : Bool
  hasLastUpdated : Bool
deriving DecidableEq

/-- Lines 177–178: a frame without a `LastUpdated` column gets one,
backdated a year so every row counts as expired. -/
def effectiveRows (cache : InfoCache) (now : ℤ) : List InfoRec :=
  if cache.hasLastUpdated then cache.rows
  else cache.rows.map (fun r => { r with lastUpdated := now - 365 * 86400 })

/-- The refresh set `tickers_to_update`: all requested tickers when the
cache is empty; otherwise (missing ∪ expired ∪ schema-forced) ∩
requested, with expiry meaning `LastUpdated < now - 7 days` (strict). -/
def tickers_to_update (cache : InfoCache) (tickers : List String) (now : ℤ) :
    List String :=
  let rows := effectiveRows cache now
  if rows.isEmpty then tickers
  else
    let existing := (rows.map InfoRec.ticker).dedup
    let missing := tickers.filter (fun t => decide (t ∉ existing))
    let expired := (rows.filter
      (fun r => decide (r.lastUpdated < now - 7 * 86400))).map InfoRec.ticker
    let missingSchema := if cache.hasName && cache.hasRecMean then [] else existing
    ((missing ++ expired ++ missingSchema).dedup).filter
      (fun t => decide (t ∈ tickers))

/-- `get_stock_info_data`: fetch the refresh set, drop old rows for
refreshed tickers, append the fresh rows, and return the whole updated
frame (the source returns `cached_df` itself, with no filtering to the
requested tickers). -/
def get_stock_info_data (fetch : String → Option InfoRec) (now : ℤ)
    (cache : InfoCache) (tickers : List String) : List InfoRec :=
  let rows := effectiveRows cache now
  let toUpd := tickers_to_update cache tickers now
  if toUpd.isEmpty then rows
  else
    let results := toUpd.filterMap fetch
    if results.isEmpty then rows
    else
      rows.filter (fun r => decide (r.ticker ∉ results.map InfoRec.ticker))
        ++ results

/-- Backdating `LastUpdated` does not change the tickers of the rows. -/
theorem effectiveRows_map_ticker (cache : InfoCache) (now : ℤ) :
    (effectiveRows cache now).map InfoRec.ticker
      = cache.rows.map InfoRec.ticker := by
  rw [effectiveRows]
  split
  · rfl
  · rw [List.map_map]
    rfl

/-- Claim C6: with an intact schema, a cached record for a requested
symbol is in the refresh set iff its `LastUpdated` is strictly older
than 7 days (so a record exactly 7 days old is still valid); requested
symbols missing from the cache are always in the refresh set; when the
schema lacks a required column every cached requested symbol is in the
refresh set; and the refresh set only contains requested symbols. -/
theorem claim6_ttl (cache : InfoCache) (tickers : List String) (now : ℤ) :
    (∀ r, r ∈ cache.rows → cache.hasLastUpdated = true →
      cache.hasName = true → cache.hasRecMean = true →
      (cache.rows.map InfoRec.ticker).Nodup → r.ticker ∈ tickers →
      (r.ticker ∈ tickers_to_update cache tickers now ↔
        r.lastUpdated < now - 7 * 86400))
    ∧ (∀ s, s ∈ tickers → (∀ r ∈ cache.rows, r.ticker ≠ s) →
        s ∈ tickers_to_update cache tickers now)
    ∧ ((cache.hasName = false ∨ cache.hasRecMean = false) →
        ∀ r ∈ cache.rows, r.ticker ∈ tickers →
          r.ticker ∈ tickers_to_update cache tickers now)
    ∧ (∀ s ∈ tickers_to_update cache tickers now, s ∈ tickers) := by
  refine ⟨?_, ?_, ?_, ?_⟩
  · intro r hr hlu hn hrm hnd hin
    have heff : effectiveRows cache now = cache.rows := by
      rw [effectiveRows, if_pos hlu]
    rw [tickers_to_update]
    rw [heff]
    have hne : cache.rows.isEmpty = false := by
      cases hrows : cache.rows with
      | nil => exact absurd (hrows ▸ hr) (List.not_mem_nil r)
      | cons a l => rfl
    rw [hne]
    simp only [Bool.false_eq_true, if_false, hn, hrm, Bool.and_self, if_true]
    constructor
    · intro hmem
      rcases List.mem_filter.mp hmem with ⟨hmem, -⟩
      rcases List.mem_dedup.mp hmem with hmem
      rcases List.mem_append.mp hmem with hmem | hmem
      · rcases List.mem_append.mp hmem with hmem | hmem
        · exfalso
          rcases List.mem_filter.mp hmem with ⟨-, hdec⟩
          have : r.ticker ∉ (cache.rows.map InfoRec.ticker).dedup :=
            of_decide_eq_true hdec
          exact this (List.mem_dedup.mpr (List.mem_map_of_mem _ hr))
        · rcases List.mem_map.mp hmem with ⟨r', hr', hticker⟩
          rcases List.mem_filter.mp hr' with ⟨hr'mem, hexp⟩
          have : r' = r :=
            List.inj_on_of_nodup_map hnd hr'mem hr hticker
          subst this
          exact of_decide_eq_true hexp
      · simp at hmem
    · intro hexp
      refine List.mem_filter.mpr ⟨?_, decide_eq_true hin⟩
      refine List.mem_dedup.mpr ?_
      refine List.mem_append.mpr (Or.inl (List.mem_append.mpr (Or.inr ?_)))
      refine List.mem_map.mpr ⟨r, ?_, rfl⟩
      exact List.mem_filter.mpr ⟨hr, decide_eq_true hexp⟩
  · intro s hs hnotin
    rw [tickers_to_update]
    cases hrows : (effectiveRows cache now).isEmpty with
    | true => simpa using hs
    | false =>
      simp only [Bool.false_eq_true, if_false]
      refine List.mem_filter.mpr ⟨?_, decide_eq_true hs⟩
      refine List.mem_dedup.mpr ?_
      refine List.mem_append.mpr (Or.inl (List.mem_append.mpr (Or.inl ?_)))
      refine List.mem_filter.mpr ⟨hs, decide_eq_true ?_⟩
      intro hmem
      rcases List.mem_dedup.mp hmem with hmem
      rw [effectiveRows_map_ticker] at hmem
      rcases List.mem_map.mp hmem with ⟨r, hr, hticker⟩
      exact hnotin r hr hticker
  · intro hschema r hr hin
    rw [tickers_to_update]
    have hne : (effectiveRows cache now).isEmpty = false := by
      rw [effectiveRows]
      split
      · cases hrows : cache.rows with
        | nil => exact absurd (hrows ▸ hr) (List.not_mem_nil r)
        | cons a l => rfl
      · cases hrows : cache.rows with
        | nil => exact absurd (hrows ▸ hr) (List.not_mem_nil r)
        | cons a l => simp [hrows]
    rw [hne]
    simp only [Bool.false_eq_true, if_false]
    have hsch : (if cache.hasName && cache.hasRecMean then ([] : List String)
        else (effectiveRows cache now).map InfoRec.ticker |>.dedup)
        = ((effectiveRows cache now).map InfoRec.ticker).dedup := by
      rcases hschema with h | h <;> rw [if_neg] <;> simp [h]
    refine List.mem_filter.mpr ⟨?_, decide_eq_true hin⟩
    refine List.mem_dedup.mpr ?_
    refine List.mem_append.mpr (Or.inr ?_)
    rw [hsch]
    refine List.mem_dedup.mpr ?_
    rw [effectiveRows_map_ticker]
    exact List.mem_map_of_mem _ hr
  · intro s hmem
    rw [tickers_to_update] at hmem
    cases hrows : (effectiveRows cache now).isEmpty with
    | true => rw [hrows] at hmem; simpa using hmem
    | false =>
      rw [hrows] at hmem
      simp only [Bool.false_eq_true, if_false] at hmem
      exact of_decide_eq_true (List.mem_filter.mp hmem).2

/-- Two records, one exactly 7 days old (still valid) and one a second
older (expired), plus a requested symbol missing from the cache. -/
def cacheW6 : InfoCache :=
  ⟨[⟨"A", -604800, 0⟩, ⟨"C", -604801, 0⟩], true, true, true⟩

/-- A one-record cache whose stored schema lacks the `Name` column. -/
def cacheW6b : InfoCache := ⟨[⟨"A", 0, 0⟩], false, true, true⟩

theorem claim6_ttl_witness :
    ("A" ∈ tickers_to_update cacheW6 ["A", "C", "D"] 0 ↔
      (-604800 : ℤ) < 0 - 7 * 86400)
    ∧ ("C" ∈ tickers_to_update cacheW6 ["A", "C", "D"] 0 ↔
      (-604801 : ℤ) < 0 - 7 * 86400)
    ∧ "D" ∈ tickers_to_update cacheW6 ["A", "C", "D"] 0
    ∧ "A" ∈ tickers_to_update cacheW6b ["A"] 0
    ∧ "D" ∈ ["A", "C", "D"] :=
  ⟨(claim6_ttl cacheW6 ["A", "C", "D"] 0).1 ⟨"A", -604800, 0⟩
      (by decide) rfl rfl rfl (by decide) (by decide),
   (claim6_ttl cacheW6 ["A", "C", "D"] 0).1 ⟨"C", -604801, 0⟩
      (by decide) rfl rfl rfl (by decide) (by decide),
   (claim6_ttl cacheW6 ["A", "C", "D"] 0).2.1 "D" (by decide) (by decide),
   (claim6_ttl cacheW6b ["A"] 0).2.2.1 (Or.inl rfl) ⟨"A", 0, 0⟩
      (by decide) (by decide),
   (claim6_ttl cacheW6 ["A", "C", "D"] 0).2.2.2 "D" (by decide)⟩

/-- Claim C8, amended: the get operation returns the whole updated
cache, NOT filtered to the requested symbols — any cached record whose
ticker is not in the refresh set survives into the result, whether or
not its symbol was requested.  `hfetch` models `fetch_one` tagging its
result with the symbol it was asked for. -/
theorem claim8_unfiltered_amended (fetch : String → Option InfoRec) (now : ℤ)
    (cache : InfoCache) (tickers : List String) (r : InfoRec)
    (hfetch : ∀ s rc, fetch s = some rc → rc.ticker = s)
    (hr : r ∈ effectiveRows cache now)
    (hnot : r.ticker ∉ tickers_to_update cache tickers now) :
    r ∈ get_stock_info_data fetch now cache tickers := by
  rw [get_stock_info_data]
  cases hupd : (tickers_to_update cache tickers now).isEmpty with
  | true => simpa using hr
  | false =>
    simp only [Bool.false_eq_true, if_false]
    cases hres : ((tickers_to_update cache tickers now).filterMap fetch).isEmpty with
    | true => simpa using hr
    | false =>
      simp only [Bool.false_eq_true, if_false]
      refine List.mem_append.mpr (Or.inl ?_)
      refine List.mem_filter.mpr ⟨hr, decide_eq_true ?_⟩
      intro hmem
      rcases List.mem_map.mp hmem with ⟨rc, hrc, hticker⟩
      rcases List.mem_filterMap.mp hrc with ⟨s, hs, hfs⟩
      have := hfetch s rc hfs
      rw [← hticker, this] at hnot
      exact hnot hs

/-- Fetch map resolving only the requested symbol `A`. -/
def fetchC8 : String → Option InfoRec := fun s =>
  if s = "A" then some ⟨"A", 0, 1⟩ else none

/-- A cache holding a still-valid record for the unrequested symbol `B`. -/
def cacheC8 : InfoCache := ⟨[⟨"B", 0, 0⟩], true, true, true⟩

/-- Claim C8 as stated is false: requesting only `A` against a cache
holding a record for `B` returns both rows — the record for `B`, a
symbol outside the requested set, appears in the result. -/
theorem claim8_unfiltered_counterexample :
    get_stock_info_data fetchC8 0 cacheC8 ["A"]
      = [⟨"B", 0, 0⟩, ⟨"A", 0, 1⟩]
    ∧ "B" ∈ (get_stock_info_data fetchC8 0 cacheC8 ["A"]).map InfoRec.ticker
    ∧ "B" ∉ ["A"] := by
  refine ⟨by decide, by decide, by decide⟩

theorem claim8_unfiltered_amended_witness :
    (⟨"B", 0, 0⟩ : InfoRec) ∈ get_stock_info_data fetchC8 0 cacheC8 ["A"] :=
  claim8_unfiltered_amended fetchC8 0 cacheC8 ["A"] ⟨"B", 0, 0⟩
    (by
      intro s rc h
      simp only [fetchC8] at h
      split at h
      · injection h with h
        rw [← h]
        next hs => exact hs.symm
      · cases h)
    (by decide) (by decide)

/-!
### Joining candidates with fundamentals (`rising_stock.py`, UI layer)

`pd.merge(stage1_df, info_df, on='Ticker', how='inner')` when
`info_df` is non-empty, else `stage1_df` with every fundamental column
set to `None` — modelled by pairing each candidate with `none`.
-/

/-- The join step: inner merge on ticker when the fundamentals frame is
non-empty, null-filled fallback otherwise. -/
def merge_with_info (cands : List Candidate) (info : List InfoRec) :
    List (Candidate × Option InfoRec) :=
  if info.isEmpty then cands.map (fun c => (c, none))
  else cands.flatMap (fun c =>
    (info.filter (fun r => decide (r.ticker = c.ticker))).map
      (fun r => (c, some r)))

/-- Claim C9, amended: the join is INNER whenever the fundamentals
frame is non-empty — a candidate then appears in the joined result iff
some fundamentals record matches its ticker, so candidates without a
record are dropped; only when the fundamentals frame is entirely empty
is every candidate kept with null-valued fundamental fields. -/
theorem claim9_join_amended (cands : List Candidate) (info : List InfoRec)
    (c : Candidate) (hc : c ∈ cands) :
    (info = [] → (c, none) ∈ merge_with_info cands info)
    ∧ (info ≠ [] →
        ((∃ p ∈ merge_with_info cands info, p.1 = c) ↔
          ∃ r ∈ info, r.ticker = c.ticker)) := by
  constructor
  · intro h
    subst h
    rw [merge_with_info]
    simpa using List.mem_map_of_mem (fun c => (c, (none : Option InfoRec))) hc
  · intro h
    rw [merge_with_info, if_neg (by simpa [List.isEmpty_iff] using h)]
    constructor
    · rintro ⟨p, hp, hp1⟩
      rcases List.mem_flatMap.mp hp with ⟨c', hc', hmem⟩
      rcases List.mem_map.mp hmem with ⟨r, hrmem, hpr⟩
      rcases List.mem_filter.mp hrmem with ⟨hrinfo, hrdec⟩
      have hc'c : c' = c := by rw [← hp1, ← hpr]
      subst hc'c
      exact ⟨r, hrinfo, of_decide_eq_true hrdec⟩
    · rintro ⟨r, hrinfo, hrt⟩
      refine ⟨(c, some r), ?_, rfl⟩
      refine List.mem_flatMap.mpr ⟨c, hc, ?_⟩
      exact List.mem_map.mpr ⟨r, List.mem_filter.mpr ⟨hrinfo, decide_eq_true hrt⟩, rfl⟩

/-- Candidate with a fundamentals record. -/
def candA : Candidate := ⟨"A", true, false, 1⟩

/-- Candidate without a fundamentals record. -/
def candB : Candidate := ⟨"B", true, false, 2⟩

/-- The single fundamentals record, matching only `candA`. -/
def recA : InfoRec := ⟨"A", 0, 0⟩

/-- Claim C9 as stated is false: with fundamentals present for
candidate `A` but not for candidate `B`, the joined result contains
only `A` — `B` is dropped by the inner join instead of being kept with
null fundamental fields. -/
theorem claim9_join_counterexample :
    merge_with_info [candA, candB] [recA] = [(candA, some recA)]
    ∧ candB ∈ [candA, candB]
    ∧ (∀ p ∈ merge_with_info [candA, candB] [recA], p.1 ≠ candB) := by
  refine ⟨by decide, by decide, by decide⟩

theorem claim9_join_amended_witness :
    (([] : List InfoRec) = [] →
      (candA, (none : Option InfoRec)) ∈ merge_with_info [candA] [])
    ∧ ([recA] ≠ [] →
        ((∃ p ∈ merge_with_info [candA] [recA], p.1 = candA) ↔
          ∃ r ∈ [recA], r.ticker = candA.ticker)) :=
  ⟨(claim9_join_amended [candA] [] candA (by decide)).1,
   (claim9_join_amended [candA] [recA] candA (by decide)).2⟩

/-!
### Price history cache (`rising_stock.py`, `update_market_data`)

The pickled multi-symbol frame is modelled as a list of date-keyed rows
(dates as `Nat`, a row holding per-symbol cells) plus the symbol level
of its column index.  `yf.download` calls are the parameters
`fetchFull` (new tickers, 1-year history) and `fetchIncr` (existing
tickers, incremental window from a start date).  Python's
`set(...) - / &` only feed emptiness tests and opaque fetch calls, so
they are modelled as order-preserving filters.
`final_df[~final_df.index.duplicated(keep='last')]` keeps, for each
date, the last row of the concatenation — `dedupKeepLast`.
-/

/-- Per-symbol cells of one date row. -/
abbrev RowCells := List (String × ℚ)

/-- The cached multi-symbol price frame. -/
structure Frame where
  syms : List String
  rows : List (Nat × RowCells)
deriving DecidableEq

/-- An empty DataFrame. -/
def Frame.emptyFrame : Frame := ⟨[], []⟩

/-- `market_data.index[-1]`, the date of the last row (0 on the empty
frame, where the source would raise). -/
def Frame.lastDate (f : Frame) : Nat :=
  match f.rows.getLast? with
  | some p => p.1
  | none => 0

/-- `df[~df.index.duplicated(keep='last')]`: keep an entry iff no later
entry carries the same date. -/
def dedupKeepLast {α : Type} : List (Nat × α) → List (Nat × α)
  | [] => []
  | x :: xs =>
    if xs.any (fun y => decide (y.1 = x.1)) then dedupKeepLast xs
    else x :: dedupKeepLast xs

/-- Row of a frame at a date, taking the LAST entry when the date is
duplicated (`.loc` semantics after the keep-last dedup). -/
def lookupLast {α : Type} : List (Nat × α) → Nat → Option α
  | [], _ => none
  | x :: xs, d =>
    match lookupLast xs d with
    | some v => some v
    | none => if x.1 = d then some x.2 else none

/-- Insert into a sorted date list. -/
def insertSorted (n : Nat) : List Nat → List Nat
  | [] => [n]
  | m :: ms => if n ≤ m then n :: m :: ms else m :: insertSorted n ms

/-- Sort a date list ascending (pandas sorts the union index of an
outer join). -/
def sortDates (l : List Nat) : List Nat := l.foldr insertSorted []

/-- `DataFrame.join(..., how='outer')`: union of columns, sorted union
of dates, cells taken from each side where present. -/
def Frame.join (a b : Frame) : Frame :=
  ⟨a.syms ++ b.syms,
   (sortDates ((a.rows.map Prod.fst ++ b.rows.map Prod.fst).dedup)).map
     (fun d => (d, ((lookupLast a.rows d).getD []) ++ ((lookupLast b.rows d).getD [])))⟩

/-- `update_market_data`: split the requested tickers into new and
existing ones, fetch full history for new tickers and the incremental
window `(last cached date + 1 .. today)` for existing ones, then
concatenate + keep-last-dedup the incremental rows and outer-join the
new columns.  The persisted snapshot equals the returned frame. -/
def update_market_data (fetchFull : List String → Frame)
    (fetchIncr : Nat → List String → Frame) (today : Nat)
    (cache : Frame) (tickers : List String) : Frame :=
  if cache.rows.isEmpty then
    if tickers ≠ [] then fetchFull tickers else Frame.emptyFrame
  else
    let existing := cache.syms
    let newTickers := tickers.filter (fun t => decide (t ∉ existing))
    let updTickers := tickers.filter (fun t => decide (t ∈ existing))
    let startFU : Option Nat :=
      if cache.lastDate < today then some (cache.lastDate + 1) else none
    let newDf := if newTickers ≠ [] then fetchFull newTickers else Frame.emptyFrame
    let updDf := match startFU with
      | some s =>
        if updTickers ≠ [] ∧ s ≤ today then fetchIncr s updTickers
        else Frame.emptyFrame
      | none => Frame.emptyFrame
    let merged := if updDf.rows.isEmpty then cache
      else ⟨cache.syms ++ updDf.syms.filter (fun s => decide (s ∉ cache.syms)),
            dedupKeepLast (cache.rows ++ updDf.rows)⟩
    if newDf.rows.isEmpty then merged else Frame.join merged newDf

/-- Keep-last lookup distributes over concatenation, preferring the
right (later) list. -/
theorem lookupLast_append {α : Type} (a b : List (Nat × α)) (d : Nat) :
    lookupLast (a ++ b) d
      = match lookupLast b d with
        | some v => some v
        | none => lookupLast a d := by
  induction a with
  | nil =>
    simp only [List.nil_append]
    cases lookupLast b d <;> rfl
  | cons x xs ih =>
    rw [List.cons_append, lookupLast, ih, lookupLast]
    cases hb : lookupLast b d with
    | some v => rfl
    | none =>
      cases hx : lookupLast xs d with
      | some v => rfl
      | none => rfl

/-- The keep-last lookup misses exactly the absent dates. -/
theorem lookupLast_eq_none_iff {α : Type} (l : List (Nat × α)) (d : Nat) :
    lookupLast l d = none ↔ d ∉ l.map Prod.fst := by
  induction l with
  | nil => simp [lookupLast]
  | cons x xs ih =>
    rw [lookupLast, List.map_cons]
    cases h : lookupLast xs d with
    | some v =>
      show some v = none ↔ _
      have hd : d ∈ xs.map Prod.fst := by
        by_contra hn
        rw [ih.mpr hn] at h
        cases h
      constructor
      · intro hc; cases hc
      · intro hmem; exact absurd (List.mem_cons_of_mem _ hd) hmem
    | none =>
      show (if x.1 = d then some x.2 else none) = none ↔ _
      have hnd : d ∉ xs.map Prod.fst := ih.mp h
      by_cases hd : x.1 = d
      · constructor
        · intro hc; rw [if_pos hd] at hc; cases hc
        · intro hmem
          exact absurd (hd ▸ List.mem_cons_self x.1 (xs.map Prod.fst)) hmem
      · constructor
        · intro _ hmem
          rcases List.mem_cons.mp hmem with h1 | h2
          · exact hd h1.symm
          · exact hnd h2
        · intro _; rw [if_neg hd]

/-- The keep-last dedup does not change per-date lookups. -/
theorem lookupLast_dedupKeepLast {α : Type} (l : List (Nat × α)) (d : Nat) :
    lookupLast (dedupKeepLast l) d = lookupLast l d := by
  induction l with
  | nil => rfl
  | cons x xs ih =>
    rw [dedupKeepLast]
    by_cases hany : xs.any (fun y => decide (y.1 = x.1)) = true
    · rw [if_pos hany, ih, lookupLast]
      cases h : lookupLast xs d with
      | some v => rfl
      | none =>
        by_cases hd : x.1 = d
        · exfalso
          rcases List.any_eq_true.mp hany with ⟨y, hy, hyx⟩
          have hyd : y.1 = d := by rw [of_decide_eq_true hyx, hd]
          have : d ∈ xs.map Prod.fst :=
            hyd ▸ List.mem_map_of_mem Prod.fst hy
          exact (lookupLast_eq_none_iff xs d).mp h this
        · rw [if_neg hd]
    · rw [if_neg hany, lookupLast, lookupLast, ih]

/-- A refresh of a snapshot that already contains every requested
ticker, when the incremental fetch returns no rows, leaves the snapshot
unchanged. -/
theorem update_market_data_no_new_data (fetchFull : List String → Frame)
    (fetchIncr : Nat → List String → Frame) (today : Nat)
    (s : Frame) (tickers : List String)
    (hne : s.rows ≠ [])
    (hsub : ∀ t ∈ tickers, t ∈ s.syms)
    (hnonew : (fetchIncr (s.lastDate + 1)
      (tickers.filter (fun t => decide (t ∈ s.syms)))).rows = []) :
    update_market_data fetchFull fetchIncr today s tickers = s := by
  have hrows : s.rows.isEmpty = false := by
    cases h : s.rows with
    | nil => exact absurd h hne
    | cons a l => rfl
  have hnoex : ¬ ∃ x ∈ tickers, x ∉ s.syms := by
    push_neg
    exact hsub
  by_cases hlt : s.lastDate < today
  · have hle : s.lastDate + 1 ≤ today := hlt
    by_cases hupd : tickers.filter (fun t => decide (t ∈ s.syms)) = []
    · simp [update_market_data, hrows, hnoex, hlt, hle, hupd, Frame.emptyFrame]
    · simp [update_market_data, hrows, hnoex, hlt, hle, hupd, hnonew,
        Frame.emptyFrame]
  · simp [update_market_data, hrows, hnoex, hlt, Frame.emptyFrame]

/-- When only existing tickers are refreshed and the incremental fetch
returns rows, the refreshed snapshot's rows are exactly the keep-last
dedup of the old rows followed by the fetched rows. -/
theorem update_market_data_merge_shape (fetchFull : List String → Frame)
    (fetchIncr : Nat → List String → Frame) (today : Nat)
    (cache : Frame) (tickers : List String)
    (hne : cache.rows ≠ [])
    (hsub : ∀ t ∈ tickers, t ∈ cache.syms)
    (hlt : cache.lastDate < today)
    (hupd : tickers.filter (fun t => decide (t ∈ cache.syms)) ≠ [])
    (hUne : (fetchIncr (cache.lastDate + 1)
      (tickers.filter (fun t => decide (t ∈ cache.syms)))).rows ≠ []) :
    (update_market_data fetchFull fetchIncr today cache tickers).rows
      = dedupKeepLast (cache.rows ++ (fetchIncr (cache.lastDate + 1)
          (tickers.filter (fun t => decide (t ∈ cache.syms)))).rows) := by
  have hrows : cache.rows.isEmpty = false := by
    cases h : cache.rows with
    | nil => exact absurd h hne
    | cons a l => rfl
  have hnoex : ¬ ∃ x ∈ tickers, x ∉ cache.syms := by
    push_neg
    exact hsub
  have hle : cache.lastDate + 1 ≤ today := hlt
  have hUfalse : (fetchIncr (cache.lastDate + 1)
      (tickers.filter (fun t => decide (t ∈ cache.syms)))).rows.isEmpty = false := by
    cases h : (fetchIncr (cache.lastDate + 1)
        (tickers.filter (fun t => decide (t ∈ cache.syms)))).rows with
    | nil => exact absurd h hUne
    | cons a l => rfl
  simp [update_market_data, hrows, hnoex, hlt, hle, hupd, hUfalse,
    Frame.emptyFrame]

/-- Claim C3: merging an incremental window that overlaps cached dates
is most-recent-write-wins — after the refresh, every date present in
the fetched window reads the newly fetched row (the last fetched row
for that date), and every date present only in the old snapshot reads
its old row unchanged. -/
theorem claim3_merge_keep_newest (fetchFull : List String → Frame)
    (fetchIncr : Nat → List String → Frame) (today : Nat)
    (cache : Frame) (tickers : List String)
    (hne : cache.rows ≠ [])
    (hsub : ∀ t ∈ tickers, t ∈ cache.syms)
    (hlt : cache.lastDate < today)
    (hupd : tickers.filter (fun t => decide (t ∈ cache.syms)) ≠ [])
    (hUne : (fetchIncr (cache.lastDate + 1)
      (tickers.filter (fun t => decide (t ∈ cache.syms)))).rows ≠ []) :
    (∀ d, d ∈ ((fetchIncr (cache.lastDate + 1)
        (tickers.filter (fun t => decide (t ∈ cache.syms)))).rows.map Prod.fst) →
      lookupLast (update_market_data fetchFull fetchIncr today cache tickers).rows d
        = lookupLast (fetchIncr (cache.lastDate + 1)
            (tickers.filter (fun t => decide (t ∈ cache.syms)))).rows d)
    ∧ (∀ d, d ∉ ((fetchIncr (cache.lastDate + 1)
        (tickers.filter (fun t => decide (t ∈ cache.syms)))).rows.map Prod.fst) →
      lookupLast (update_market_data fetchFull fetchIncr today cache tickers).rows d
        = lookupLast cache.rows d) := by
  have hshape := update_market_data_merge_shape fetchFull fetchIncr today cache
    tickers hne hsub hlt hupd hUne
  constructor
  · intro d hd
    rw [hshape, lookupLast_dedupKeepLast, lookupLast_append]
    cases h : lookupLast (fetchIncr (cache.lastDate + 1)
        (tickers.filter (fun t => decide (t ∈ cache.syms)))).rows d with
    | some v => rfl
    | none => exact absurd hd ((lookupLast_eq_none_iff _ _).mp h)
  · intro d hd
    rw [hshape, lookupLast_dedupKeepLast, lookupLast_append,
      (lookupLast_eq_none_iff _ _).mpr hd]

/-- Claim C4: refreshing the snapshot a second time with the same
ticker set, when no new trading days arrived (the incremental fetch
from the day after the snapshot's last date returns no rows), returns
exactly the snapshot of the first refresh. -/
theorem claim4_refresh_idempotent (fetchFull : List String → Frame)
    (fetchIncr : Nat → List String → Frame) (today : Nat)
    (cache : Frame) (tickers : List String)
    (h1 : (update_market_data fetchFull fetchIncr today cache tickers).rows ≠ [])
    (h2 : ∀ t ∈ tickers,
      t ∈ (update_market_data fetchFull fetchIncr today cache tickers).syms)
    (h3 : (fetchIncr
      ((update_market_data fetchFull fetchIncr today cache tickers).lastDate + 1)
      (tickers.filter (fun t => decide
        (t ∈ (update_market_data fetchFull fetchIncr today cache tickers).syms)))).rows
      = []) :
    update_market_data fetchFull fetchIncr today
        (update_market_data fetchFull fetchIncr today cache tickers) tickers
      = update_market_data fetchFull fetchIncr today cache tickers :=
  update_market_data_no_new_data fetchFull fetchIncr today _ tickers h1 h2 h3

/-- Full-history fetch for the C4 witness: one symbol, one row. -/
def fullFetchW4 : List String → Frame := fun _ => ⟨["A"], [(5, [("A", 1)])]⟩

/-- Incremental fetch for the C4 witness: no new trading days. -/
def incrFetchW4 : Nat → List String → Frame := fun _ _ => Frame.emptyFrame

theorem claim4_refresh_idempotent_witness :
    update_market_data fullFetchW4 incrFetchW4 5
        (update_market_data fullFetchW4 incrFetchW4 5 Frame.emptyFrame ["A"]) ["A"]
      = update_market_data fullFetchW4 incrFetchW4 5 Frame.emptyFrame ["A"] :=
  claim4_refresh_idempotent fullFetchW4 incrFetchW4 5 Frame.emptyFrame ["A"]
    (by decide) (by decide) (by decide)

/-- Cached snapshot for the C3 witness: symbol `A`, dates 1 and 2. -/
def cacheC3 : Frame := ⟨["A"], [(1, [("A", 10)]), (2, [("A", 20)])]⟩

/-- No new tickers are fetched in the C3 witness. -/
def fullFetchC3 : List String → Frame := fun _ => Frame.emptyFrame

/-- Incremental window overlapping cached date 2 with an altered value
(99 instead of 20) and adding date 3. -/
def incrFetchC3 : Nat → List String → Frame :=
  fun _ _ => ⟨["A"], [(2, [("A", 99)]), (3, [("A", 30)])]⟩

theorem claim3_merge_keep_newest_witness :
    (lookupLast (update_market_data fullFetchC3 incrFetchC3 3 cacheC3 ["A"]).rows 2
      = lookupLast (incrFetchC3 (cacheC3.lastDate + 1)
          (["A"].filter (fun t => decide (t ∈ cacheC3.syms)))).rows 2)
    ∧ (lookupLast (update_market_data fullFetchC3 incrFetchC3 3 cacheC3 ["A"]).rows 1
      = lookupLast cacheC3.rows 1) :=
  ⟨(claim3_merge_keep_newest fullFetchC3 incrFetchC3 3 cacheC3 ["A"]
      (by decide) (by decide) (by decide) (by decide) (by decide)).1 2 (by decide),
   (claim3_merge_keep_newest fullFetchC3 incrFetchC3 3 cacheC3 ["A"]
      (by decide) (by decide) (by decide) (by decide) (by decide)).2 1 (by decide)⟩

end Stock
